import Mathlib

/-!
Verification of the star-activity aggregation pipeline.

Shallow embedding of the TypeScript sources:
* `src/backend/src/day/dayService.ts` (`DayService.formatResponse`, `getDailyStars`)
* `src/backend/src/week/weekService.ts` / `src/unnamed/part_004` (window aggregation)
* `src/unnamed/part_001` (`processResponse` filtering and limiting)
* `src/starsRefactor/src/day/dayStorage.ts` and
  `src/backend/src/utils/repositoryEnricher.ts` (cache tiers)
* `src/backend/env/types.ts` (refresh scheduler)
* `src/unnamed/part_009` (`fetchEach` stream consumer)

JavaScript objects are modelled as association lists in insertion order;
property assignment is `objAssign` (overwrite in place, else append), matching
JS object semantics.  String operations are implemented over the character
list (`String.data`) so that every definition evaluates by kernel reduction.
-/

set_option autoImplicit false

namespace RugStars

/-- JS `String.prototype.trim` (also the implicit trim of `Number(string)`):
drop whitespace from both ends. -/
def jsTrimChars (cs : List Char) : List Char :=
  ((cs.dropWhile Char.isWhitespace).reverse.dropWhile Char.isWhitespace).reverse

/-- JS `String.prototype.toLowerCase` for the ASCII repository identifiers the
sources handle. -/
def jsToLower (s : String) : String :=
  String.mk (s.data.map Char.toLower)

/-- JS `String.prototype.startsWith`. -/
def jsStartsWith (s p : String) : Bool :=
  p.data.isPrefixOf s.data

/-- JS `String.prototype.slice(n)` (drop the first `n` characters). -/
def jsSlice (s : String) (n : Nat) : String :=
  String.mk (s.data.drop n)

/-- JS `String.prototype.split(sep)` for a one-character separator.
`"".split(x)` is `[""]`, matching JS. -/
def splitOnChar (sep : Char) : List Char → List (List Char)
  | [] => [[]]
  | c :: rest =>
    if c = sep then [] :: splitOnChar sep rest
    else
      match splitOnChar sep rest with
      | [] => [[c]]
      | g :: gs => (c :: g) :: gs

/-- A JSON scalar value as it appears in the upstream daily document: either a
repository identifier (string) or a number (e.g. `total_repositories`).
Numbers are modelled as `Int`; the sources never produce fractional values
in these positions. -/
inductive JVal where
  | str (s : String)
  | num (n : Int)
deriving DecidableEq, Repr

/-- JS object property write: `o[k] = v`.  If the key is present its
occurrence is overwritten in place (JS objects have unique keys); otherwise
the pair is appended, matching JS insertion order. -/
def objAssign {α : Type} : List (String × α) → String → α → List (String × α)
  | [], k, v => [(k, v)]
  | (k', v') :: rest, k, v =>
    if k' = k then (k, v) :: rest else (k', v') :: objAssign rest k v

/-- JS `!isNaN(Number(key))` from `DayService.formatResponse`
(`src/backend/src/day/dayService.ts:92`), covering the decimal forms that
occur as upstream keys: after trimming, the empty string is numeric
(`Number("") = 0`), and an optionally signed digit string with an optional
fractional part is numeric; alphabetic keys such as `"date"`,
`"total_repositories"` and `"timestamp"` are not.  (Hex/exponent literals,
which never occur as keys of the daily document, are not modelled.) -/
def isNumericKey (s : String) : Bool :=
  let t := jsTrimChars s.data
  if t.isEmpty then true
  else
    let t1 := if t.head? = some '-' ∨ t.head? = some '+' then t.drop 1 else t
    match splitOnChar '.' t1 with
    | [a] => !a.isEmpty && a.all Char.isDigit
    | [a, b] => (!a.isEmpty || !b.isEmpty) && a.all Char.isDigit && b.all Char.isDigit
    | _ => false

/-- The `limitedEntries.forEach` loop of `DayService.formatResponse`
(`src/backend/src/day/dayService.ts:102-107`): walk the (already limited)
entries with running index `i`; string values are written into the result
object under their lowercased name with score `total - i`; non-string values
are skipped (but still advance `i`, as `forEach` does). -/
def scoreLoop : List (String × JVal) → Nat → Nat → List (String × Nat) → List (String × Nat)
  | [], _, _, acc => acc
  | (_, JVal.num _) :: rest, total, i, acc => scoreLoop rest total (i + 1) acc
  | (_, JVal.str name) :: rest, total, i, acc =>
    scoreLoop rest total (i + 1) (objAssign acc (jsToLower name) (total - i))

/-- The numeric-key filter of `DayService.formatResponse`
(`src/backend/src/day/dayService.ts:91-93`). -/
def dayRepoEntries (data : List (String × JVal)) : List (String × JVal) :=
  data.filter fun kv => isNumericKey kv.1

/-- The limit application of `DayService.formatResponse`
(`src/backend/src/day/dayService.ts:96`): `limit ? repoEntries.slice(0, limit)
: repoEntries` — a limit of `0` is falsy in JS and means "no limit". -/
def limitedDayEntries (data : List (String × JVal)) (limit : Option Nat) :
    List (String × JVal) :=
  match limit with
  | none => dayRepoEntries data
  | some l => if l = 0 then dayRepoEntries data else (dayRepoEntries data).take l

/-- `DayService.formatResponse` (`src/backend/src/day/dayService.ts:86-110`):
filter to numeric-index keys, apply the limit, then invert rank into score
with `totalRepos = limitedEntries.length`. -/
def formatResponse (data : List (String × JVal)) (limit : Option Nat) :
    List (String × Nat) :=
  scoreLoop (limitedDayEntries data limit) (limitedDayEntries data limit).length 0 []

/-- The lowercased names of the string-valued entries of a document fragment,
in order.  These are exactly the keys `formatResponse`'s loop writes. -/
def strNames : List (String × JVal) → List String
  | [] => []
  | (_, JVal.num _) :: rest => strNames rest
  | (_, JVal.str s) :: rest => jsToLower s :: strNames rest

/-- The spec's description of rank inversion (§4.2 step 3): the entry at
position `i` (counting from the second argument) among `total` entries
receives score `total - i`, keyed by the lowercased repository identifier;
non-string entries produce nothing but still occupy a position. -/
def specDayScores (total : Nat) : Nat → List (String × JVal) → List (String × Nat)
  | _, [] => []
  | i, (_, JVal.num _) :: rest => specDayScores total (i + 1) rest
  | i, (_, JVal.str name) :: rest =>
    (jsToLower name, total - i) :: specDayScores total (i + 1) rest

theorem objAssign_of_not_mem {α : Type} (acc : List (String × α)) (k : String) (v : α)
    (h : ∀ p ∈ acc, p.1 ≠ k) : objAssign acc k v = acc ++ [(k, v)] := by
  induction acc with
  | nil => rfl
  | cons p rest ih =>
    obtain ⟨k', v'⟩ := p
    have hp : k' ≠ k := h (k', v') (by simp)
    simp only [objAssign, if_neg hp]
    rw [ih fun q hq => h q (List.mem_cons_of_mem _ hq)]
    simp

theorem scoreLoop_eq_append (l : List (String × JVal)) (total : Nat) :
    ∀ (i : Nat) (acc : List (String × Nat)), (strNames l).Nodup →
      (∀ s ∈ strNames l, ∀ p ∈ acc, p.1 ≠ s) →
      scoreLoop l total i acc = acc ++ specDayScores total i l := by
  induction l with
  | nil => intro i acc _ _; simp [scoreLoop, specDayScores]
  | cons kv rest ih =>
    intro i acc hnd hdisj
    obtain ⟨k, v⟩ := kv
    cases v with
    | num n =>
      simp only [scoreLoop, specDayScores]
      exact ih (i + 1) acc hnd hdisj
    | str s =>
      simp only [scoreLoop, specDayScores]
      have hs : jsToLower s ∈ strNames ((k, JVal.str s) :: rest) := by
        simp [strNames]
      have hnot : ∀ p ∈ acc, p.1 ≠ jsToLower s := fun p hp => hdisj (jsToLower s) hs p hp
      rw [objAssign_of_not_mem acc (jsToLower s) (total - i) hnot]
      have hcons : strNames ((k, JVal.str s) :: rest) = jsToLower s :: strNames rest := rfl
      rw [hcons] at hnd
      have hnd' : (strNames rest).Nodup := hnd.of_cons
      have hhead : jsToLower s ∉ strNames rest := (List.nodup_cons.mp hnd).1
      have hdisj' : ∀ t ∈ strNames rest,
          ∀ p ∈ acc ++ [(jsToLower s, total - i)], p.1 ≠ t := by
        intro t ht p hp
        rcases List.mem_append.mp hp with hpa | hpb
        · exact hdisj t (by simp [strNames, ht]) p hpa
        · have hpe : p = (jsToLower s, total - i) := by simpa using hpb
          subst hpe
          intro he
          apply hhead
          have he' : jsToLower s = t := he
          rw [he']
          exact ht
      rw [ih (i + 1) (acc ++ [(jsToLower s, total - i)]) hnd' hdisj']
      simp

/-- The worked example document of the spec (§8): two ranked entries plus a
metadata key. -/
def exampleDoc : List (String × JVal) :=
  [("0", JVal.str "a/b"), ("1", JVal.str "c/d"), ("date", JVal.str "2025-01-01")]

/-- C1: `formatResponse` (the body of `getDay`) keeps only entries whose key is
numeric; among the `T` filtered entries, the entry at position `i` receives
score `T - i` under its lowercased repository identifier (given that the
lowercased identifiers are distinct, as upstream rankings are); and on the
example document `{"0": "a/b", "1": "c/d", "date": "2025-01-01"}` with no
limit the result is `{"a/b": 2, "c/d": 1}`. -/
theorem c1_day_rank_inversion :
    (∀ data : List (String × JVal),
      (strNames (dayRepoEntries data)).Nodup →
      formatResponse data none
        = specDayScores (dayRepoEntries data).length 0 (dayRepoEntries data)) ∧
    formatResponse exampleDoc none = [("a/b", 2), ("c/d", 1)] := by
  constructor
  · intro data hnd
    show scoreLoop (dayRepoEntries data) (dayRepoEntries data).length 0 []
      = specDayScores (dayRepoEntries data).length 0 (dayRepoEntries data)
    rw [scoreLoop_eq_append _ _ 0 [] hnd (by intro s _ p hp; simp at hp)]
    simp
  · decide

/-- Witness for C1: the general rank-inversion equation instantiated at the
spec's example document. -/
theorem c1_day_rank_inversion_witness :
    (strNames (dayRepoEntries exampleDoc)).Nodup ∧
    formatResponse exampleDoc none
      = specDayScores (dayRepoEntries exampleDoc).length 0 (dayRepoEntries exampleDoc) :=
  ⟨by decide, c1_day_rank_inversion.1 exampleDoc (by decide)⟩

theorem specDayScores_keys (total : Nat) :
    ∀ (i : Nat) (l : List (String × JVal)),
      (specDayScores total i l).map Prod.fst = strNames l := by
  intro i l
  induction l generalizing i with
  | nil => rfl
  | cons kv rest ih =>
    obtain ⟨k, v⟩ := kv
    cases v with
    | num n => simpa [specDayScores, strNames] using ih (i + 1)
    | str s => simpa [specDayScores, strNames] using ih (i + 1)

theorem strNames_take (l : List (String × JVal))
    (hstr : ∀ kv ∈ l, ∃ s, kv.2 = JVal.str s) :
    ∀ k : Nat, strNames (l.take k) = (strNames l).take k := by
  induction l with
  | nil => intro k; simp [strNames]
  | cons kv rest ih =>
    intro k
    obtain ⟨key, v⟩ := kv
    obtain ⟨s, hs⟩ := hstr (key, v) (by simp)
    have hv : v = JVal.str s := hs
    subst hv
    cases k with
    | zero => simp [strNames]
    | succ k =>
      have ih' := ih (fun kv hkv => hstr kv (List.mem_cons_of_mem _ hkv)) k
      simp [strNames, ih']

/-- A three-entry daily document used to refute the limit claim. -/
def limitDoc : List (String × JVal) :=
  [("0", JVal.str "a/b"), ("1", JVal.str "c/d"), ("2", JVal.str "e/f")]

/-- C3 counterexample: on a sorted map of size `M = 3` with `limit = K = 2`,
the limited output of `formatResponse` is not the unlimited output truncated
to its first 2 entries — the keys agree but the scores are recomputed against
the truncated length (`{"a/b": 2, "c/d": 1}` versus `{"a/b": 3, "c/d": 2}`). -/
theorem c3_limit_counterexample :
    ¬ formatResponse limitDoc (some 2) = (formatResponse limitDoc none).take 2 := by
  decide

/-- C3 amended: `getDay` with `limit = K` returns the first `K` filtered
entries, but the rank inversion is computed after truncation, so the entry at
position `i` receives score `K - i` (not `T - i`): the limited output equals
`specDayScores` of the truncated entry list.  Consequently the keys (in
order) are exactly the first `K` keys of the unlimited output, while the
score values differ from the unlimited ones by `T - K`. -/
theorem c3_limit_amended (data : List (String × JVal)) (k : Nat) (hk : k ≠ 0)
    (hnd : (strNames (dayRepoEntries data)).Nodup)
    (hstr : ∀ kv ∈ dayRepoEntries data, ∃ s, kv.2 = JVal.str s) :
    formatResponse data (some k)
        = specDayScores ((dayRepoEntries data).take k).length 0
            ((dayRepoEntries data).take k)
      ∧ (formatResponse data (some k)).map Prod.fst
        = ((formatResponse data none).map Prod.fst).take k := by
  have hsub : strNames ((dayRepoEntries data).take k) = (strNames (dayRepoEntries data)).take k :=
    strNames_take (dayRepoEntries data) hstr k
  have hndk : (strNames ((dayRepoEntries data).take k)).Nodup := by
    rw [hsub]
    exact hnd.sublist (List.take_sublist _ _)
  have hlim : limitedDayEntries data (some k) = (dayRepoEntries data).take k := by
    simp [limitedDayEntries, hk]
  have heq : formatResponse data (some k)
      = specDayScores ((dayRepoEntries data).take k).length 0
          ((dayRepoEntries data).take k) := by
    show scoreLoop (limitedDayEntries data (some k)) (limitedDayEntries data (some k)).length 0 []
      = specDayScores ((dayRepoEntries data).take k).length 0 ((dayRepoEntries data).take k)
    rw [hlim]
    rw [scoreLoop_eq_append _ _ 0 [] hndk (by intro s _ p hp; simp at hp)]
    simp
  refine ⟨heq, ?_⟩
  have hun : formatResponse data none
      = specDayScores (dayRepoEntries data).length 0 (dayRepoEntries data) :=
    c1_day_rank_inversion.1 data hnd
  rw [heq, hun, specDayScores_keys, specDayScores_keys, hsub]

/-- Witness for C3's amended theorem: instantiated at the three-entry document
with `K = 2`. -/
theorem c3_limit_amended_witness :
    ((2 : Nat) ≠ 0 ∧ (strNames (dayRepoEntries limitDoc)).Nodup ∧
      ∀ kv ∈ dayRepoEntries limitDoc, ∃ s, kv.2 = JVal.str s) ∧
    (formatResponse limitDoc (some 2)
        = specDayScores ((dayRepoEntries limitDoc).take 2).length 0
            ((dayRepoEntries limitDoc).take 2)
      ∧ (formatResponse limitDoc (some 2)).map Prod.fst
        = ((formatResponse limitDoc none).map Prod.fst).take 2) := by
  refine ⟨⟨by decide, by decide, ?_⟩, c3_limit_amended limitDoc 2 (by decide) (by decide) ?_⟩
  · intro kv hkv
    fin_cases hkv <;> exact ⟨_, rfl⟩
  · intro kv hkv
    fin_cases hkv <;> exact ⟨_, rfl⟩

/-! ## Window aggregation (`WeekService.getLastWeekData`,
`MonthService.getLastMonthData`) -/

/-- JS numeric coercion guard of the aggregation loop
(`src/backend/src/week/weekService.ts:55`):
`typeof score === 'number' ? score : 0`. -/
def toNumeric : JVal → Int
  | JVal.num n => n
  | JVal.str _ => 0

/-- JS `(aggregatedData[repo] || 0)`: the score stored for `repo` in an
aggregation object, `0` when absent (a stored score of `0` gives the same
value, so `||` and `getD` agree). -/
def lookupScore (m : List (String × Int)) (repo : String) : Int :=
  (m.lookup repo).getD 0

/-- One fetched day's inner loop (`weekService.ts:53-59`): for every entry,
`aggregatedData[repo] = (aggregatedData[repo] || 0) + numericScore`. -/
def addDay (acc : List (String × Int)) (day : List (String × JVal)) : List (String × Int) :=
  day.foldl (fun a kv => objAssign a kv.1 (lookupScore a kv.1 + toNumeric kv.2)) acc

/-- The per-day fetch loop (`weekService.ts:41-63`): a `none` day models a
failed fetch (non-2xx response or network error), which the service skips
with `continue`; a `some` day is folded into the aggregate. -/
def aggregateDays (days : List (Option (List (String × JVal)))) : List (String × Int) :=
  days.foldl
    (fun a day? =>
      match day? with
      | none => a
      | some day => addDay a day)
    []

/-- The final sort by count descending (`weekService.ts:66-68`), with JS's
stable sort modelled as insertion sort. -/
def sortByScoreDesc (l : List (String × Int)) : List (String × Int) :=
  l.insertionSort fun a b => b.2 ≤ a.2

/-- `WeekService.getLastWeekData` (`src/backend/src/week/weekService.ts:23-71`)
as a function of the seven per-day fetch outcomes (day `i` is `i` days before
today). -/
def getLastWeekData (fetchDay : Nat → Option (List (String × JVal))) :
    List (String × Int) :=
  sortByScoreDesc (aggregateDays ((List.range 7).map fetchDay))

/-- `MonthService.getLastMonthData` (`src/unnamed/part_004:24-72`), identical
to the week service but over thirty days. -/
def getLastMonthData (fetchDay : Nat → Option (List (String × JVal))) :
    List (String × Int) :=
  sortByScoreDesc (aggregateDays ((List.range 30).map fetchDay))

/-- The total numeric score a repository draws from one day's document
(summing duplicate keys, which a parsed JS object cannot actually contain). -/
def dayScoreOf : List (String × JVal) → String → Int
  | [], _ => 0
  | (k, v) :: rest, r => (if k = r then toNumeric v else 0) + dayScoreOf rest r

/-- What one fetch outcome contributes to a repository's window total:
nothing for a failed day, its day score otherwise. -/
def dayContribution (day? : Option (List (String × JVal))) (r : String) : Int :=
  match day? with
  | none => 0
  | some day => dayScoreOf day r

def keysOf {α : Type} (m : List (String × α)) : List String :=
  m.map Prod.fst

theorem lookup_cons {α : Type} (r k : String) (w : α) (rest : List (String × α)) :
    List.lookup r ((k, w) :: rest) = if r = k then some w else List.lookup r rest := by
  by_cases h : r = k
  · subst h; simp [List.lookup]
  · have hb : (r == k) = false := by simp [h]
    simp [List.lookup, hb, h]

theorem lookup_objAssign {α : Type} (k : String) (v : α) (r : String) :
    ∀ m : List (String × α),
      (objAssign m k v).lookup r = if r = k then some v else m.lookup r := by
  intro m
  induction m with
  | nil =>
    show List.lookup r [(k, v)] = if r = k then some v else List.lookup r ([] : List (String × α))
    rw [lookup_cons]
  | cons p rest ih =>
    obtain ⟨k', v'⟩ := p
    by_cases hk : k' = k
    · subst hk
      have hobj : objAssign ((k', v') :: rest) k' v = (k', v) :: rest := by
        simp [objAssign]
      rw [hobj, lookup_cons, lookup_cons]
      by_cases hr : r = k' <;> simp [hr]
    · simp only [objAssign, if_neg hk]
      rw [lookup_cons, lookup_cons, ih]
      by_cases hr : r = k'
      · subst hr
        simp [hk]
      · simp [hr]

theorem lookupScore_addDay (day : List (String × JVal)) :
    ∀ (acc : List (String × Int)) (r : String),
      lookupScore (addDay acc day) r = lookupScore acc r + dayScoreOf day r := by
  induction day with
  | nil => intro acc r; simp [addDay, dayScoreOf]
  | cons kv rest ih =>
    intro acc r
    obtain ⟨k, v⟩ := kv
    have hstep : addDay acc ((k, v) :: rest)
        = addDay (objAssign acc k (lookupScore acc k + toNumeric v)) rest := rfl
    rw [hstep, ih]
    simp only [dayScoreOf, lookupScore, lookup_objAssign]
    by_cases hr : r = k
    · subst hr; simp; ring
    · simp [hr, Ne.symm hr]

theorem lookupScore_aggregateDays (days : List (Option (List (String × JVal))))
    (r : String) :
    lookupScore (aggregateDays days) r = (days.map fun day? => dayContribution day? r).sum := by
  suffices h : ∀ acc : List (String × Int),
      lookupScore
        (days.foldl
          (fun a day? =>
            match day? with
            | none => a
            | some day => addDay a day)
          acc) r
        = lookupScore acc r + (days.map fun day? => dayContribution day? r).sum by
    have := h []
    simpa [aggregateDays, lookupScore] using this
  induction days with
  | nil => intro acc; simp
  | cons day? rest ih =>
    intro acc
    cases day? with
    | none => simpa [dayContribution] using ih acc
    | some day =>
      simp only [List.foldl_cons, List.map_cons, List.sum_cons]
      rw [ih (addDay acc day), lookupScore_addDay]
      simp [dayContribution]
      ring

theorem mem_keys_objAssign {α : Type} (k : String) (v : α) (x : String) :
    ∀ m : List (String × α), x ∈ keysOf (objAssign m k v) → x = k ∨ x ∈ keysOf m := by
  intro m
  induction m with
  | nil => intro h; simpa [objAssign, keysOf] using h
  | cons p rest ih =>
    obtain ⟨k', v'⟩ := p
    by_cases hk : k' = k
    · subst hk
      intro h
      simpa [objAssign, keysOf] using h
    · intro h
      simp only [objAssign, if_neg hk, keysOf, List.map_cons, List.mem_cons] at h
      rcases h with h | h
      · exact Or.inr (by simp [keysOf, h])
      · rcases ih h with h' | h'
        · exact Or.inl h'
        · exact Or.inr (by simp [keysOf] at h' ⊢; exact Or.inr h')

theorem nodup_keys_objAssign {α : Type} (k : String) (v : α) :
    ∀ m : List (String × α), (keysOf m).Nodup → (keysOf (objAssign m k v)).Nodup := by
  intro m
  induction m with
  | nil => intro _; simp [objAssign, keysOf]
  | cons p rest ih =>
    obtain ⟨k', v'⟩ := p
    intro hnd
    simp only [keysOf, List.map_cons, List.nodup_cons] at hnd
    by_cases hk : k' = k
    · subst hk
      simpa [objAssign, keysOf, List.nodup_cons] using hnd
    · simp only [objAssign, if_neg hk, keysOf, List.map_cons, List.nodup_cons]
      refine ⟨?_, ih hnd.2⟩
      intro hmem
      rcases mem_keys_objAssign k v k' rest hmem with h | h
      · exact hk h
      · exact hnd.1 h

theorem nodup_keys_addDay (day : List (String × JVal)) :
    ∀ acc : List (String × Int), (keysOf acc).Nodup → (keysOf (addDay acc day)).Nodup := by
  induction day with
  | nil => intro acc h; simpa [addDay] using h
  | cons kv rest ih =>
    intro acc h
    obtain ⟨k, v⟩ := kv
    have hstep : addDay acc ((k, v) :: rest)
        = addDay (objAssign acc k (lookupScore acc k + toNumeric v)) rest := rfl
    rw [hstep]
    exact ih _ (nodup_keys_objAssign _ _ acc h)

theorem nodup_keys_aggregateDays (days : List (Option (List (String × JVal)))) :
    (keysOf (aggregateDays days)).Nodup := by
  suffices h : ∀ acc : List (String × Int), (keysOf acc).Nodup →
      (keysOf
        (days.foldl
          (fun a day? =>
            match day? with
            | none => a
            | some day => addDay a day)
          acc)).Nodup by
    exact h [] (by simp [keysOf])
  induction days with
  | nil => intro acc h; simpa using h
  | cons day? rest ih =>
    intro acc h
    cases day? with
    | none => exact ih acc h
    | some day => exact ih (addDay acc day) (nodup_keys_addDay day acc h)

theorem lookup_mem {α : Type} {r : String} {v : α} :
    ∀ {m : List (String × α)}, m.lookup r = some v → (r, v) ∈ m := by
  intro m
  induction m with
  | nil => intro h; simp [List.lookup] at h
  | cons p rest ih =>
    obtain ⟨k, w⟩ := p
    intro h
    rw [lookup_cons] at h
    by_cases hk : r = k
    · subst hk
      rw [if_pos rfl] at h
      simp at h
      simp [h]
    · rw [if_neg hk] at h
      exact List.mem_cons_of_mem _ (ih h)

theorem lookup_eq_some_of_mem {α : Type} {r : String} {v : α} :
    ∀ {m : List (String × α)}, (keysOf m).Nodup → (r, v) ∈ m → m.lookup r = some v := by
  intro m
  induction m with
  | nil => intro _ h; simp at h
  | cons p rest ih =>
    obtain ⟨k, w⟩ := p
    intro hnd hm
    simp only [keysOf, List.map_cons, List.nodup_cons] at hnd
    rw [lookup_cons]
    rcases List.mem_cons.mp hm with h | h
    · have hk : r = k := by
        have := congrArg Prod.fst h
        simpa using this
      have hv : v = w := by
        have := congrArg Prod.snd h
        simpa using this
      subst hk; subst hv
      simp
    · have hk : r ≠ k := by
        intro he
        subst he
        refine absurd ?_ hnd.1
        have : (r, v).1 ∈ List.map Prod.fst rest := List.mem_map_of_mem Prod.fst h
        simpa using this
      rw [if_neg hk]
      exact ih hnd.2 h

theorem lookup_eq_none_iff {α : Type} (r : String) :
    ∀ m : List (String × α), m.lookup r = none ↔ r ∉ keysOf m := by
  intro m
  induction m with
  | nil => simp [List.lookup, keysOf]
  | cons p rest ih =>
    obtain ⟨k, w⟩ := p
    rw [lookup_cons]
    have hcons : keysOf ((k, w) :: rest) = k :: keysOf rest := rfl
    rw [hcons]
    by_cases hk : r = k
    · subst hk
      simp
    · rw [if_neg hk, ih]
      simp [hk]

theorem lookup_perm {α : Type} {m m' : List (String × α)} (hperm : m.Perm m')
    (hnd : (keysOf m).Nodup) (r : String) : m.lookup r = m'.lookup r := by
  have hnd' : (keysOf m').Nodup := ((hperm.map Prod.fst).nodup_iff).mp hnd
  cases h : m.lookup r with
  | some v =>
    have hm' : (r, v) ∈ m' := hperm.mem_iff.mp (lookup_mem h)
    exact (lookup_eq_some_of_mem hnd' hm').symm
  | none =>
    have hnot : r ∉ keysOf m := (lookup_eq_none_iff r m).mp h
    have hnot' : r ∉ keysOf m' := by
      intro hx
      exact hnot (((hperm.map Prod.fst).mem_iff).mpr hx)
    exact ((lookup_eq_none_iff r m').mpr hnot').symm

theorem lookupScore_sortByScoreDesc (l : List (String × Int))
    (hnd : (keysOf l).Nodup) (r : String) :
    lookupScore (sortByScoreDesc l) r = lookupScore l r := by
  unfold lookupScore sortByScoreDesc
  rw [lookup_perm (List.perm_insertionSort _ l) ?_ r]
  have hperm := List.perm_insertionSort (fun a b : String × Int => b.2 ≤ a.2) l
  exact ((hperm.map Prod.fst).nodup_iff).mpr hnd

/-- C2: for both windows (`N = 7` and `N = 30`), every repository's score in
the window result is the sum of that repository's per-day scores over the `N`
fetch outcomes, where a failed day (`none`) contributes `0` and leaves the
other days' contributions unaffected. -/
theorem c2_window_sum (fetchDay : Nat → Option (List (String × JVal))) (repo : String) :
    lookupScore (getLastWeekData fetchDay) repo
        = ((List.range 7).map fun i => dayContribution (fetchDay i) repo).sum
      ∧ lookupScore (getLastMonthData fetchDay) repo
        = ((List.range 30).map fun i => dayContribution (fetchDay i) repo).sum := by
  constructor
  · unfold getLastWeekData
    rw [lookupScore_sortByScoreDesc _ (nodup_keys_aggregateDays _) repo,
      lookupScore_aggregateDays, List.map_map]
    rfl
  · unfold getLastMonthData
    rw [lookupScore_sortByScoreDesc _ (nodup_keys_aggregateDays _) repo,
      lookupScore_aggregateDays, List.map_map]
    rfl

/-! ## Enrichment engine (`RepositoryEnricher`, `processResponse`) -/

/-- An enriched repository entry (`EnrichedRepoInfo` in `src/unnamed/part_001`,
`EnrichedRepositoryData[string]` in `repositoryEnricher.ts`): the score, the
fetched metadata (`null` on failure) and an optional error message.  The
metadata payload (`RepositoryInfo`: details, issues, pulls, discussions,
collaborators) is opaque to every operation verified here, so it is a type
parameter `ι`. -/
structure EnrichedEntry (ι : Type) where
  score : Int
  info : Option ι
  error : Option String
deriving DecidableEq, Repr

/-- JS truthiness of an optional error-message field: `undefined` and the
empty string are falsy, every other string is truthy. -/
def jsTruthyStr : Option String → Bool
  | none => false
  | some s => !s.isEmpty

/-- The error filter of `processResponse` (`src/unnamed/part_001:170-181`):
with `include_errors` unset, keep only entries with no (truthy) `error` and a
non-null `info`. -/
def filterEnriched {ι : Type} (enrichedData : List (String × EnrichedEntry ι))
    (includeErrors : Bool) : List (String × EnrichedEntry ι) :=
  if includeErrors then enrichedData
  else enrichedData.filter fun kv => !jsTruthyStr kv.2.error && kv.2.info.isSome

/-- The limit application of `processResponse` (`src/unnamed/part_001:183-188`):
`if (limit && limit > 0)` slice the filtered entries. -/
def applyEnrichLimit {ι : Type} (d : List (String × EnrichedEntry ι))
    (limit : Option Int) : List (String × EnrichedEntry ι) :=
  match limit with
  | none => d
  | some l => if 0 < l then d.take l.toNat else d

/-- The filter-then-limit tail of `processResponse`
(`src/unnamed/part_001:170-188`). -/
def processEnriched {ι : Type} (enrichedData : List (String × EnrichedEntry ι))
    (includeErrors : Bool) (limit : Option Int) : List (String × EnrichedEntry ι) :=
  applyEnrichLimit (filterEnriched enrichedData includeErrors) limit

theorem length_filter_split {α : Type} (p : α → Bool) :
    ∀ l : List α, (l.filter p).length + (l.filter fun x => !p x).length = l.length := by
  intro l
  induction l with
  | nil => simp
  | cons x xs ih =>
    cases hp : p x <;> simp [List.filter_cons, hp, ← ih] <;> omega

/-- C4: with `include_errors = false`, every failed entry (null `info`) is
absent from the output even after limiting; without a limit the output size
is the input size minus the number of failed entries; and with a positive
limit `K` the output size is `min K` of the count of successful entries —
i.e. the limit truncates the already-filtered list, so failures never eat
into the requested count.  The hypothesis states entry well-formedness as the
enricher produces it: an entry carrying an error message has null `info`. -/
theorem c4_filter_before_limit {ι : Type} (entries : List (String × EnrichedEntry ι))
    (limit : Option Int)
    (hwf : ∀ kv ∈ entries, jsTruthyStr kv.2.error = true → kv.2.info = none) :
    (∀ kv ∈ processEnriched entries false limit, kv.2.info ≠ none)
      ∧ (processEnriched entries false none).length
        = entries.length - (entries.filter fun kv => kv.2.info.isNone).length
      ∧ ∀ k : Int, 0 < k →
        (processEnriched entries false (some k)).length
          = min k.toNat (filterEnriched entries false).length := by
  have hmem : ∀ kv ∈ filterEnriched entries false, kv.2.info ≠ none := by
    intro kv hkv
    have := List.of_mem_filter hkv
    have hsome : kv.2.info.isSome = true := by
      cases h1 : jsTruthyStr kv.2.error <;> cases h2 : kv.2.info.isSome <;>
        simp [h1, h2] at this ⊢
    intro hnone
    rw [hnone] at hsome
    simp at hsome
  have hfeq : filterEnriched entries false = entries.filter fun kv => kv.2.info.isSome := by
    show entries.filter _ = entries.filter _
    apply List.filter_congr
    intro kv hkv
    cases hinfo : kv.2.info with
    | none => simp [hinfo]
    | some i =>
      have : jsTruthyStr kv.2.error = false := by
        cases h : jsTruthyStr kv.2.error
        · rfl
        · have := hwf kv hkv h
          rw [this] at hinfo
          exact absurd hinfo (by simp)
      simp [hinfo, this]
  refine ⟨?_, ?_, ?_⟩
  · intro kv hkv
    apply hmem
    cases limit with
    | none => exact hkv
    | some l =>
      by_cases hl : 0 < l
      · exact List.take_subset _ _ (by simpa [processEnriched, applyEnrichLimit, hl] using hkv)
      · simpa [processEnriched, applyEnrichLimit, hl] using hkv
  · show (filterEnriched entries false).length = _
    rw [hfeq]
    have hsplit := length_filter_split (fun kv : String × EnrichedEntry ι => kv.2.info.isSome) entries
    have hneg : (entries.filter fun kv : String × EnrichedEntry ι => !kv.2.info.isSome)
        = entries.filter fun kv : String × EnrichedEntry ι => kv.2.info.isNone := by
      apply List.filter_congr
      intro kv _
      cases kv.2.info <;> simp
    rw [hneg] at hsplit
    omega
  · intro k hk
    show (applyEnrichLimit (filterEnriched entries false) (some k)).length = _
    simp [applyEnrichLimit, hk]

/-- One well-formed success entry and one well-formed failure entry. -/
def enrichedPair : List (String × EnrichedEntry Unit) :=
  [("octo/ok", ⟨5, some (), none⟩), ("octo/bad", ⟨3, none, some "boom"⟩)]

/-- Witness for C4: the filter/limit properties at a concrete two-entry
result with `limit = 1`. -/
theorem c4_filter_before_limit_witness :
    (∀ kv ∈ enrichedPair, jsTruthyStr kv.2.error = true → kv.2.info = none) ∧
    ((∀ kv ∈ processEnriched enrichedPair false (some 1), kv.2.info ≠ none)
      ∧ (processEnriched enrichedPair false none).length
        = enrichedPair.length - (enrichedPair.filter fun kv => kv.2.info.isNone).length
      ∧ ∀ k : Int, 0 < k →
        (processEnriched enrichedPair false (some k)).length
          = min k.toNat (filterEnriched enrichedPair false).length) :=
  ⟨by decide, c4_filter_before_limit enrichedPair (some 1) (by decide)⟩

/-! ## Cache store tiers (`DayStorage`, `RepositoryEnricher` cache helpers) -/

/-- Outcome of one underlying KV-store call (`env.GITHUB_STARS_CACHE.get` /
`.put` / `.delete`): a value, or a thrown store error (I/O failure). -/
inductive KVResult (α : Type) where
  | ok (a : α)
  | err (e : String)
deriving DecidableEq, Repr

namespace DayStorage

/-- `DayStorage.getCachedData` (`src/starsRefactor/src/day/dayStorage.ts:11-25`):
on a stored string, `JSON.parse` it (`parse` returning `none` models a parse
throw, caught by the handler); a missing key or any thrown error yields
`null`. -/
def getCachedData {α : Type} (raw : KVResult (Option String))
    (parse : String → Option α) : Option α :=
  match raw with
  | .ok (some s) =>
    match parse s with
    | some v => some v
    | none => none
  | .ok none => none
  | .err _ => none

/-- `DayStorage.cacheData` (`src/starsRefactor/src/day/dayStorage.ts:33-47`):
a store failure is caught, logged, and then re-thrown as
`new Error("Failed to cache data")`. -/
def cacheData (putResult : KVResult Unit) : Except String Unit :=
  match putResult with
  | .ok _ => Except.ok ()
  | .err _ => Except.error "Failed to cache data"

/-- `DayStorage.deleteCachedData` (`src/starsRefactor/src/day/dayStorage.ts:53-60`):
a store failure is caught and re-thrown as
`new Error("Failed to delete cached data")`. -/
def deleteCachedData (delResult : KVResult Unit) : Except String Unit :=
  match delResult with
  | .ok _ => Except.ok ()
  | .err _ => Except.error "Failed to delete cached data"

end DayStorage

namespace RepositoryEnricher

/-- `RepositoryEnricher.getFromCache`
(`src/backend/src/utils/repositoryEnricher.ts:289-306`): a missing key, a
store error or a parse throw all yield `null` ("return null on any cache
error to allow fallback to API"). -/
def getFromCache {α : Type} (raw : KVResult (Option String))
    (parse : String → Option α) : Option α :=
  match raw with
  | .ok (some s) =>
    match parse s with
    | some v => some v
    | none => none
  | .ok none => none
  | .err _ => none

/-- `RepositoryEnricher.storeInCache`
(`src/backend/src/utils/repositoryEnricher.ts:314-332`): a store failure is
caught and swallowed ("Continue execution even if cache operation fails"),
so the operation never raises. -/
def storeInCache (putResult : KVResult Unit) : Except String Unit :=
  match putResult with
  | .ok _ => Except.ok ()
  | .err _ => Except.ok ()

end RepositoryEnricher

/-- C5 counterexample: a failed underlying write in
`DayStorage.cacheData` is not a no-op for the caller — the catch block
re-throws a wrapped error, contradicting "a store failure ... never raises
to the caller". -/
theorem c5_store_failure_counterexample :
    DayStorage.cacheData (KVResult.err "disk full") = Except.error "Failed to cache data" :=
  rfl

/-- C5 amended: failed cache reads behave as misses in both tiers
(`DayStorage.getCachedData` and `RepositoryEnricher.getFromCache` return
`null` on a store error), and a failed enrichment-cache write
(`RepositoryEnricher.storeInCache`) is a swallowed no-op; but the
`DayStorage` write and delete operations catch the store error and re-throw
a wrapped error to the caller instead of behaving as no-ops. -/
theorem c5_store_failure_amended {α : Type} (parse : String → Option α) (e : String) :
    DayStorage.getCachedData (KVResult.err e) parse = none
      ∧ RepositoryEnricher.getFromCache (KVResult.err e) parse = none
      ∧ RepositoryEnricher.storeInCache (KVResult.err e) = Except.ok ()
      ∧ DayStorage.cacheData (KVResult.err e) = Except.error "Failed to cache data"
      ∧ DayStorage.deleteCachedData (KVResult.err e)
        = Except.error "Failed to delete cached data" :=
  ⟨rfl, rfl, rfl, rfl, rfl⟩

/-! ## Enricher fetch path (`getRepositoryInfo`, `fetchRepositoryInfo`) -/

/-- `RepositoryEnricher.fetchRepositoryInfo`
(`src/backend/src/utils/repositoryEnricher.ts:240-282`): a successful fetch
yields `{score, info}`; a thrown fetch error yields
`{score, info: null, error: error.message || "Unknown error occurred"}`. -/
def fetchRepositoryInfo {ι : Type} (fetchResult : Except String ι) (score : Int) :
    EnrichedEntry ι :=
  match fetchResult with
  | .ok info => ⟨score, some info, none⟩
  | .error msg => ⟨score, none, some (if msg.isEmpty then "Unknown error occurred" else msg)⟩

/-- The enrichment cache key
(`src/backend/src/utils/repositoryEnricher.ts:196`). -/
def enrichCacheKey (timeframe repoFullName : String) : String :=
  "repo_info:" ++ timeframe ++ ":" ++ repoFullName

/-- `RepositoryEnricher.getRepositoryInfo`
(`src/backend/src/utils/repositoryEnricher.ts:188-232`), returning the entry
plus the list of cache writes the call performs.  On a cache hit the cached
entry is spread with the current score (`{...cachedData, score}`); on a miss
the fetch result is returned and cached only when
`repoInfo.info !== null && !repoInfo.error`. -/
def getRepositoryInfo {ι : Type} (timeframe repoFullName : String)
    (cached : Option (EnrichedEntry ι)) (fetchResult : Except String ι)
    (score : Int) : EnrichedEntry ι × List (String × EnrichedEntry ι) :=
  match cached with
  | some cachedData => ({ cachedData with score := score }, [])
  | none =>
    let repoInfo := fetchRepositoryInfo fetchResult score
    if repoInfo.info.isSome && !jsTruthyStr repoInfo.error then
      (repoInfo, [(enrichCacheKey timeframe repoFullName, repoInfo)])
    else
      (repoInfo, [])

/-- C6: when the cache misses and the metadata fetch fails, the returned
entry is `{score, info: null, error: message}` and no cache write happens;
and in general every write the enricher performs carries non-null `info` and
no `error` — failures are never cached, so a later call with an empty cache
re-runs the fetch. -/
theorem c6_failed_fetch_not_cached {ι : Type} (timeframe repoFullName msg : String)
    (score : Int) (hmsg : msg ≠ "") :
    getRepositoryInfo timeframe repoFullName (none : Option (EnrichedEntry ι))
        (Except.error msg) score = (⟨score, none, some msg⟩, [])
      ∧ ∀ (cached : Option (EnrichedEntry ι)) (fetchResult : Except String ι) (s : Int),
          ∀ w ∈ (getRepositoryInfo timeframe repoFullName cached fetchResult s).2,
            w.2.info ≠ none ∧ w.2.error = none := by
  constructor
  · have hemp : msg.isEmpty = false := by
      rw [Bool.eq_false_iff]
      intro h
      exact hmsg ((String.isEmpty_iff msg).mp h)
    simp [getRepositoryInfo, fetchRepositoryInfo, jsTruthyStr, hemp, hmsg]
  · intro cached fetchResult s w hw
    cases cached with
    | some c => simp [getRepositoryInfo] at hw
    | none =>
      cases fetchResult with
      | ok info =>
        simp [getRepositoryInfo, fetchRepositoryInfo, jsTruthyStr] at hw
        rw [hw]
        exact ⟨by simp, rfl⟩
      | error m =>
        simp [getRepositoryInfo, fetchRepositoryInfo, jsTruthyStr] at hw

/-- Witness for C6: a concrete failed fetch for `octo/repo` with a 500
message. -/
theorem c6_failed_fetch_not_cached_witness :
    ("Failed to fetch repository info: 500" ≠ "") ∧
    (getRepositoryInfo "day" "octo/repo" (none : Option (EnrichedEntry Unit))
        (Except.error "Failed to fetch repository info: 500") 3
        = (⟨3, none, some "Failed to fetch repository info: 500"⟩, [])
      ∧ ∀ (cached : Option (EnrichedEntry Unit)) (fetchResult : Except String Unit) (s : Int),
          ∀ w ∈ (getRepositoryInfo "day" "octo/repo" cached fetchResult s).2,
            w.2.info ≠ none ∧ w.2.error = none) :=
  ⟨by decide,
    c6_failed_fetch_not_cached "day" "octo/repo" "Failed to fetch repository info: 500" 3
      (by decide)⟩

/-- The cached-enrichment score refresh of `processResponse`
(`src/unnamed/part_001:130-134`): every cached entry whose repository is
present in the fresh score map gets its score overwritten in place; entries
absent from the fresh map are untouched. -/
def updateScores {ι : Type} (enrichedData : List (String × EnrichedEntry ι))
    (data : List (String × Int)) : List (String × EnrichedEntry ι) :=
  enrichedData.map fun kv =>
    match data.lookup kv.1 with
    | some s => (kv.1, { kv.2 with score := s })
    | none => kv

/-- C7: on an enrichment cache hit the returned entry is the cached entry
with only `score` replaced by the current score (`info`, `error` and the
write set untouched); and the cached-response score refresh of
`processResponse` rewrites exactly the `score` fields (from the current
score map) while keeping every key, `info` and `error` unchanged. -/
theorem c7_cache_hit_frame {ι : Type} (timeframe repoFullName : String)
    (cachedData : EnrichedEntry ι) (fetchResult : Except String ι) (score : Int)
    (enrichedData : List (String × EnrichedEntry ι)) (data : List (String × Int)) :
    (getRepositoryInfo timeframe repoFullName (some cachedData) fetchResult score).1.score
          = score
      ∧ (getRepositoryInfo timeframe repoFullName (some cachedData) fetchResult score).1.info
          = cachedData.info
      ∧ (getRepositoryInfo timeframe repoFullName (some cachedData) fetchResult score).1.error
          = cachedData.error
      ∧ (getRepositoryInfo timeframe repoFullName (some cachedData) fetchResult score).2 = []
      ∧ updateScores enrichedData data
          = enrichedData.map fun kv =>
              (kv.1, { kv.2 with score := (data.lookup kv.1).getD kv.2.score }) := by
  refine ⟨rfl, rfl, rfl, rfl, ?_⟩
  unfold updateScores
  apply List.map_congr_left
  intro kv _
  cases h : data.lookup kv.1 <;> simp [h]

/-! ## Refresh scheduler (`shouldRefreshCache`, `hasRefreshedToday`,
`src/backend/env/types.ts`) -/

/-- A wall-clock instant by its UTC components, exactly the fields the
scheduler reads (`getUTCFullYear/Month/Date/Hours/Minutes`; `getUTCMonth` is
0-based). -/
structure UtcTime where
  year : Int
  month : Nat
  day : Nat
  hour : Nat
  minute : Nat
deriving DecidableEq, Repr

/-- `DEV_CONFIG.apiRefreshHour` (`src/backend/env/env.ts:43`). -/
def apiRefreshHour : Nat := 1

/-- `DEV_CONFIG.apiRefreshBuffer` (`src/backend/env/env.ts:46`). -/
def apiRefreshBuffer : Nat := 30

/-- The `isTimeToRefresh` computation of `shouldRefreshCache`
(`src/backend/env/types.ts:356-362`): at the refresh hour past the buffer
minutes, or after the refresh hour. -/
def isTimeToRefresh (now : UtcTime) : Bool :=
  (now.hour = apiRefreshHour && apiRefreshBuffer ≤ now.minute)
    || apiRefreshHour < now.hour

/-- The `wasAfterRefreshTime` computation of `hasRefreshedToday`
(`src/backend/env/types.ts:429-432`). -/
def wasAfterRefreshTime (t : UtcTime) : Bool :=
  apiRefreshHour < t.hour || (t.hour = apiRefreshHour && apiRefreshBuffer ≤ t.minute)

/-- The `isSameDay` computation of `hasRefreshedToday`
(`src/backend/env/types.ts:420-423`): same UTC year, month and day. -/
def isSameUtcDay (a b : UtcTime) : Bool :=
  a.year = b.year && a.month = b.month && a.day = b.day

/-- `hasRefreshedToday` (`src/backend/env/types.ts:394-448`): reads the
`...-last-refresh` marker; a missing marker means not refreshed, a thrown
store error is caught and also means not refreshed ("On error, assume cache
has not been refreshed"); otherwise the marker counts only if it is from the
same UTC day and at/after the refresh cutoff. -/
def hasRefreshedToday (marker : KVResult (Option UtcTime)) (now : UtcTime) : Bool :=
  match marker with
  | .err _ => false
  | .ok none => false
  | .ok (some t) => isSameUtcDay t now && wasAfterRefreshTime t

/-- `shouldRefreshCache` (`src/backend/env/types.ts:346-387`): no refresh
before the cutoff; past the cutoff, refresh exactly when today's refresh has
not already happened. -/
def shouldRefreshCache (marker : KVResult (Option UtcTime)) (now : UtcTime) : Bool :=
  if !isTimeToRefresh now then false
  else isTimeToRefresh now && !hasRefreshedToday marker now

/-- C8: with cutoff hour 1 UTC and buffer 30 minutes — a marker of 00:50 UTC
yesterday forces a refresh at 02:00 UTC today; a marker of 01:45 UTC today
does not; and a marker from a different UTC calendar day never counts as
"already refreshed today", whatever its hour and minute. -/
theorem c8_refresh_scheduler (t now : UtcTime)
    (hday : ¬(t.year = now.year ∧ t.month = now.month ∧ t.day = now.day)) :
    shouldRefreshCache (KVResult.ok (some ⟨2025, 0, 1, 0, 50⟩)) ⟨2025, 0, 2, 2, 0⟩ = true
      ∧ shouldRefreshCache (KVResult.ok (some ⟨2025, 0, 2, 1, 45⟩)) ⟨2025, 0, 2, 2, 0⟩ = false
      ∧ hasRefreshedToday (KVResult.ok (some t)) now = false := by
  refine ⟨by decide, by decide, ?_⟩
  have hsame : isSameUtcDay t now = false := by
    rw [Bool.eq_false_iff]
    intro h
    apply hday
    have h' : (t.year = now.year ∧ t.month = now.month) ∧ t.day = now.day := by
      simpa [isSameUtcDay] using h
    exact ⟨h'.1.1, h'.1.2, h'.2⟩
  simp [hasRefreshedToday, hsame]

/-- Witness for C8: the previous-day rule applied to the 00:50-yesterday
marker against 02:00 today. -/
theorem c8_refresh_scheduler_witness :
    (¬((2025 : Int) = 2025 ∧ (0 : Nat) = 0 ∧ (1 : Nat) = 2)) ∧
    (shouldRefreshCache (KVResult.ok (some ⟨2025, 0, 1, 0, 50⟩)) ⟨2025, 0, 2, 2, 0⟩ = true
      ∧ shouldRefreshCache (KVResult.ok (some ⟨2025, 0, 2, 1, 45⟩)) ⟨2025, 0, 2, 2, 0⟩ = false
      ∧ hasRefreshedToday (KVResult.ok (some ⟨2025, 0, 1, 0, 50⟩)) ⟨2025, 0, 2, 2, 0⟩
        = false) :=
  ⟨by decide, c8_refresh_scheduler ⟨2025, 0, 1, 0, 50⟩ ⟨2025, 0, 2, 2, 0⟩ (by decide)⟩

/-- C10: a thrown marker read is caught and treated as "not refreshed today",
so whenever the current time is past the cutoff hour plus buffer, a
marker-read failure forces a refresh (fail-open) instead of trusting the
cached list. -/
theorem c10_marker_read_failure_fails_open (e : String) (now : UtcTime)
    (htime : isTimeToRefresh now = true) :
    hasRefreshedToday (KVResult.err e) now = false
      ∧ shouldRefreshCache (KVResult.err e) now = true := by
  exact ⟨rfl, by simp [shouldRefreshCache, hasRefreshedToday, htime]⟩

/-- Witness for C10: a store error during the marker read at 02:00 UTC. -/
theorem c10_marker_read_failure_fails_open_witness :
    isTimeToRefresh ⟨2025, 0, 2, 2, 0⟩ = true
      ∧ (hasRefreshedToday (KVResult.err "kv unavailable") ⟨2025, 0, 2, 2, 0⟩ = false
        ∧ shouldRefreshCache (KVResult.err "kv unavailable") ⟨2025, 0, 2, 2, 0⟩ = true) :=
  ⟨by decide, c10_marker_read_failure_fails_open "kv unavailable" ⟨2025, 0, 2, 2, 0⟩ (by decide)⟩

/-! ## Fan-out dispatch client (`fetchEach`, `src/unnamed/part_009`) -/

/-- A JSON value, as produced by `JSON.parse` on the dispatcher's final
payload.  Numbers are modelled as integers (the payloads carried here hold
statuses, counts and strings; float literals are outside the modelled
subset). -/
inductive Json where
  | null
  | bool (b : Bool)
  | num (n : Int)
  | str (s : String)
  | arr (elems : List Json)
  | obj (fields : List (String × Json))
deriving Repr, BEq

/-- JSON insignificant whitespace. -/
def isJsonWs (c : Char) : Bool :=
  c = ' ' || c = '\n' || c = '\t' || c = '\r'

def skipJsonWs (cs : List Char) : List Char :=
  cs.dropWhile isJsonWs

/-- JSON string body after the opening quote: plain characters until the
closing quote, with the single-character escapes.  (`\u` escapes never occur
in the dispatcher's payloads and are outside the modelled subset.) -/
def parseStringBody : Nat → List Char → Option (List Char × List Char)
  | 0, _ => none
  | _ + 1, [] => none
  | fuel + 1, c :: rest =>
    if c = '"' then some ([], rest)
    else if c = '\\' then
      match rest with
      | [] => none
      | e :: rest2 =>
        match
          (if e = '"' then some '"'
            else if e = '\\' then some '\\'
            else if e = '/' then some '/'
            else if e = 'n' then some '\n'
            else if e = 't' then some '\t'
            else if e = 'r' then some '\r'
            else if e = 'b' then some '\x08'
            else if e = 'f' then some '\x0c'
            else none) with
        | none => none
        | some d =>
          match parseStringBody fuel rest2 with
          | none => none
          | some (body, rem) => some (d :: body, rem)
    else
      match parseStringBody fuel rest with
      | none => none
      | some (body, rem) => some (c :: body, rem)

def digitsToNat (ds : List Char) : Nat :=
  ds.foldl (fun acc c => acc * 10 + (c.toNat - '0'.toNat)) 0

/-- `JSON.parse` results keep the last of duplicate object keys; building the
field list with `objAssign` reproduces that. -/
def buildObj (members : List (String × Json)) : List (String × Json) :=
  members.foldl (fun acc kv => objAssign acc kv.1 kv.2) []

mutual

/-- Recursive-descent `JSON.parse` over the integer/string/array/object
subset the dispatcher exchanges; returns the value and the unconsumed rest,
or `none` on malformed or incomplete input.  The fuel argument only bounds
recursion depth; `jsonParse` supplies more than the input length can use. -/
def parseValue : Nat → List Char → Option (Json × List Char)
  | 0, _ => none
  | fuel + 1, input =>
    match skipJsonWs input with
    | [] => none
    | c :: rest =>
      if c = 'n' then
        if rest.take 3 = ['u', 'l', 'l'] then some (Json.null, rest.drop 3) else none
      else if c = 't' then
        if rest.take 3 = ['r', 'u', 'e'] then some (Json.bool true, rest.drop 3) else none
      else if c = 'f' then
        if rest.take 4 = ['a', 'l', 's', 'e'] then some (Json.bool false, rest.drop 4) else none
      else if c = '"' then
        match parseStringBody (fuel + 1) rest with
        | none => none
        | some (body, rem) => some (Json.str (String.mk body), rem)
      else if c = '[' then
        match skipJsonWs rest with
        | ']' :: rem => some (Json.arr [], rem)
        | _ =>
          match parseValue fuel rest with
          | none => none
          | some (v, rem) =>
            match parseArrayRest fuel rem with
            | none => none
            | some (vs, rem2) => some (Json.arr (v :: vs), rem2)
      else if c = '\x7b' then
        match skipJsonWs rest with
        | '\x7d' :: rem => some (Json.obj [], rem)
        | _ =>
          match parseMember fuel rest with
          | none => none
          | some (kv, rem) =>
            match parseObjRest fuel rem with
            | none => none
            | some (kvs, rem2) => some (Json.obj (buildObj (kv :: kvs)), rem2)
      else if c = '-' then
        match rest.takeWhile Char.isDigit with
        | [] => none
        | ds => some (Json.num (-(digitsToNat ds : Int)), rest.dropWhile Char.isDigit)
      else if c.isDigit then
        some (Json.num (digitsToNat ((c :: rest).takeWhile Char.isDigit)),
          (c :: rest).dropWhile Char.isDigit)
      else none

/-- After one array element: either `]` closes the array or `,` introduces
the next element. -/
def parseArrayRest : Nat → List Char → Option (List Json × List Char)
  | 0, _ => none
  | fuel + 1, input =>
    match skipJsonWs input with
    | ']' :: rem => some ([], rem)
    | ',' :: rem =>
      match parseValue fuel rem with
      | none => none
      | some (v, rem2) =>
        match parseArrayRest fuel rem2 with
        | none => none
        | some (vs, rem3) => some (v :: vs, rem3)
    | _ => none

/-- One `"key": value` object member. -/
def parseMember : Nat → List Char → Option ((String × Json) × List Char)
  | 0, _ => none
  | fuel + 1, input =>
    match skipJsonWs input with
    | '"' :: rest =>
      match parseStringBody (fuel + 1) rest with
      | none => none
      | some (body, rem) =>
        match skipJsonWs rem with
        | ':' :: rem2 =>
          match parseValue fuel rem2 with
          | none => none
          | some (v, rem3) => some ((String.mk body, v), rem3)
        | _ => none
    | _ => none

/-- After one object member: either the closing brace or `,` and the next
member. -/
def parseObjRest : Nat → List Char → Option (List (String × Json) × List Char)
  | 0, _ => none
  | fuel + 1, input =>
    match skipJsonWs input with
    | '\x7d' :: rem => some ([], rem)
    | ',' :: rem =>
      match parseMember fuel rem with
      | none => none
      | some (kv, rem2) =>
        match parseObjRest fuel rem2 with
        | none => none
        | some (kvs, rem3) => some (kv :: kvs, rem3)
    | _ => none

end

/-- `JSON.parse`: a full parse of the whole string (trailing whitespace
allowed, anything else — including a truncated payload — throws, i.e. yields
`none`). -/
def jsonParse (s : String) : Option Json :=
  match parseValue (2 * s.data.length + 2) s.data with
  | none => none
  | some (j, rem) => if (skipJsonWs rem).isEmpty then some j else none

/-- JS property access `parsed.array`: a field lookup on an object,
`undefined` (`none`) on anything else or a missing field. -/
def jsGetField : Json → String → Option Json
  | Json.obj fields, k => fields.lookup k
  | _, _ => none

/-- The mutable loop state of `fetchEach`'s reader loop
(`src/unnamed/part_009:48-49`): the partial final-result payload and whether
the `result` event has been seen. -/
structure StreamState where
  resultBuffer : String
  collecting : Bool
deriving Repr

/-- One line of `fetchEach`'s inner `for` loop (`src/unnamed/part_009:59-87`):
an `event: result` line switches to collecting; once collecting, each
`data: ` line is appended to the result buffer, which is returned as soon as
it parses as JSON (the `update` branch only logs and is omitted).  The
returned value is `parsed.array`. -/
def processLine (st : StreamState) (line : String) : StreamState ⊕ Option Json :=
  if jsStartsWith line "event: " && (jsTrimChars (line.data.drop 7) == "result".data) then
    Sum.inl { st with collecting := true }
  else if st.collecting && jsStartsWith line "data: " then
    match jsonParse (st.resultBuffer ++ jsSlice line 6) with
    | some parsed => Sum.inr (jsGetField parsed "array")
    | none => Sum.inl { st with resultBuffer := st.resultBuffer ++ jsSlice line 6 }
  else Sum.inl st

def processLines : StreamState → List String → StreamState ⊕ Option Json
  | st, [] => Sum.inl st
  | st, line :: rest =>
    match processLine st line with
    | Sum.inl st' => processLines st' rest
    | Sum.inr r => Sum.inr r

/-- JS `buffer.split("\n")`. -/
def splitLines (s : String) : List String :=
  (splitOnChar '\n' s.data).map String.mk

/-- The chunk loop of `fetchEach` (`src/unnamed/part_009:51-88`): each decoded
chunk is appended to the line buffer, complete lines are processed
(`lines.pop()` keeps the trailing partial line buffered), and a stream that
ends before a complete final payload parses throws
`"Stream ended without complete result"`. -/
def feedChunks : StreamState → String → List String → Except String (Option Json)
  | _, _, [] => Except.error "Stream ended without complete result"
  | st, lineBuffer, chunk :: rest =>
    match processLines st (splitLines (lineBuffer ++ chunk)).dropLast with
    | Sum.inr r => Except.ok r
    | Sum.inl st' =>
      feedChunks st' (((splitLines (lineBuffer ++ chunk)).getLast?).getD "") rest

/-- `fetchEach` (`src/unnamed/part_009:12-91`) as a function of the dispatch
response: the HTTP status check, the body check, and the stream-reading
loop over the decoded chunks. -/
def fetchEach (responseOk hasBody : Bool) (chunks : List String) :
    Except String (Option Json) :=
  if !responseOk then Except.error "dmap failed"
  else if !hasBody then Except.error "No response body"
  else feedChunks ⟨"", false⟩ "" chunks

/-- Modelled from the spec: the fetch-each worker itself (the queue/durable
object service the client POSTs to) is not part of this repository's
sources — only its client (`src/unnamed/part_009`) and README
(`src/unnamed/part_007`) are.  Per §4.5, the dispatcher executes each
request descriptor independently and returns one outcome per item in the
input order (`len(output) == len(input)`, order-preserving, fault-isolated);
`handler` gives each item's individual outcome. -/
def dispatchModel {α β : Type} (items : List α) (handler : α → β) : List β :=
  items.map handler

theorem processLine_inr (st : StreamState) (line : String) (r : Option Json)
    (h : processLine st line = Sum.inr r) :
    ∃ parsed : Json,
      jsonParse (st.resultBuffer ++ jsSlice line 6) = some parsed
        ∧ jsGetField parsed "array" = r := by
  unfold processLine at h
  split at h
  · exact absurd h (by simp)
  · split at h
    · split at h
      · rename_i parsed hparse
        refine ⟨parsed, hparse, ?_⟩
        injection h
      · exact absurd h (by simp)
    · exact absurd h (by simp)

theorem processLines_inr :
    ∀ (lines : List String) (st : StreamState) (r : Option Json),
      processLines st lines = Sum.inr r →
      ∃ (s : String) (parsed : Json),
        jsonParse s = some parsed ∧ jsGetField parsed "array" = r := by
  intro lines
  induction lines with
  | nil => intro st r h; simp [processLines] at h
  | cons line rest ih =>
    intro st r h
    rw [processLines] at h
    cases hpl : processLine st line with
    | inl st' =>
      rw [hpl] at h
      exact ih st' r h
    | inr r' =>
      rw [hpl] at h
      have hr : r' = r := by injection h
      obtain ⟨parsed, hp, hg⟩ := processLine_inr st line r' hpl
      exact ⟨st.resultBuffer ++ jsSlice line 6, parsed, hp, by rw [hg, hr]⟩

theorem feedChunks_ok :
    ∀ (chunks : List String) (st : StreamState) (lineBuffer : String) (r : Option Json),
      feedChunks st lineBuffer chunks = Except.ok r →
      ∃ (s : String) (parsed : Json),
        jsonParse s = some parsed ∧ jsGetField parsed "array" = r := by
  intro chunks
  induction chunks with
  | nil => intro st lb r h; simp [feedChunks] at h
  | cons chunk rest ih =>
    intro st lb r h
    rw [feedChunks] at h
    cases hpl : processLines st (splitLines (lb ++ chunk)).dropLast with
    | inr r' =>
      rw [hpl] at h
      have hr : r' = r := by injection h
      obtain ⟨s, parsed, hp, hg⟩ := processLines_inr _ st r' hpl
      exact ⟨s, parsed, hp, by rw [hg, hr]⟩
    | inl st' =>
      rw [hpl] at h
      exact ih st' _ r h

theorem fetchEach_ok (responseOk hasBody : Bool) (chunks : List String) (r : Option Json)
    (h : fetchEach responseOk hasBody chunks = Except.ok r) :
    ∃ (s : String) (parsed : Json),
      jsonParse s = some parsed ∧ jsGetField parsed "array" = r := by
  unfold fetchEach at h
  split at h
  · exact absurd h (by simp)
  · split at h
    · exact absurd h (by simp)
    · exact feedChunks_ok chunks _ "" r h

/-- A dispatch response stream whose final payload arrives split across
three chunks (the `result` data line is completed only by the last chunk),
preceded by an `update` progress event. -/
def resultChunks : List String :=
  ["event: update\ndata: 1/2 done\nevent: result\ndata: \x7b\"arr",
   "ay\": [\x7b\"status\": 200\x7d",
   ", \x7b\"status\": 500, \"error\": \"boom\"\x7d]\x7d\n"]

/-- The ordered per-item outcome array carried by `resultChunks`. -/
def resultPayload : Option Json :=
  some (Json.arr
    [Json.obj [("status", Json.num 200)],
     Json.obj [("status", Json.num 500), ("error", Json.str "boom")]])

/-- A stream that ends while the final payload is still incomplete JSON. -/
def truncatedChunks : List String :=
  ["event: result\ndata: \x7b\"array\": [\x7b\"status\": 200\x7d\n"]

/-- C9: the fan-out dispatch contract.  The dispatcher (modelled from the
spec, §4.5, as its worker is not in the sources) returns one outcome per
input item in the original order; `fetchEach` returns a value only when the
buffered final-result payload has fully parsed as JSON (whatever the
chunking); on `resultChunks` it reassembles the payload split across three
chunks and returns the ordered outcome array; and on a stream that ends
before the payload completes it raises
`"Stream ended without complete result"` instead of returning a partial
result. -/
theorem c9_fetch_each_contract :
    (∀ (α β : Type) (items : List α) (handler : α → β),
        (dispatchModel items handler).length = items.length
          ∧ ∀ i : Nat, (dispatchModel items handler)[i]? = (items[i]?).map handler)
      ∧ (∀ (responseOk hasBody : Bool) (chunks : List String) (r : Option Json),
          fetchEach responseOk hasBody chunks = Except.ok r →
          ∃ (s : String) (parsed : Json),
            jsonParse s = some parsed ∧ jsGetField parsed "array" = r)
      ∧ fetchEach true true resultChunks = Except.ok resultPayload
      ∧ fetchEach true true truncatedChunks
        = Except.error "Stream ended without complete result" := by
  refine ⟨?_, fetchEach_ok, rfl, rfl⟩
  intro α β items handler
  exact ⟨by simp [dispatchModel], fun i => by simp [dispatchModel]⟩

/-- Witness for C9: the full-parse guarantee applied to the concrete
three-chunk stream. -/
theorem c9_fetch_each_contract_witness :
    fetchEach true true resultChunks = Except.ok resultPayload
      ∧ ∃ (s : String) (parsed : Json),
          jsonParse s = some parsed ∧ jsGetField parsed "array" = resultPayload :=
  ⟨rfl, c9_fetch_each_contract.2.1 true true resultChunks resultPayload rfl⟩

end RugStars
